import Mathlib

set_option maxRecDepth 8000

/-!
Shallow embedding of the BRRO/ATSC time-series compressor core
(`brro-compressor` crate) and proofs checking its natural-language
specification against the source.

Modelling conventions:

* `f64`/`f32` sample values are modelled as exact rationals (`ℚ`); each
  floating-point operation of the source is modelled by the corresponding
  exact rational operation, and numeric casts (`as f32`, `as f64`) are
  modelled as the identity.  Theorems about concrete inputs only use values
  at which the floating-point operations of the source are exact.
* Machine integers (`usize`, `u16`, `u8`) are modelled as `ℕ`, with an
  explicit `% 2 ^ w` at each site where the source truncates (`as u16`,
  `as u8`).
* The external FFT (`rustfft`), spline (`splines`) and inverse-distance
  (`inverse_distance_weight`) crates are collaborators outside the
  repository; the embedding is parameterised by an `ExternModel` carrying
  their evaluation functions.  `rustfft`'s `process` works in place on a
  buffer, so preservation of the buffer length is part of the model, not an
  assumption about the repository's own code.
* Rust panic sites (indexing out of range, `unwrap`, division by zero) are
  noted at each definition.  List accesses use defaulted variants
  (`headI`, `getD`, `getLastD`) whose default is unreachable under the
  hypotheses of the theorems below, except where a panic is itself the
  modelled behaviour (`from_bytes`).
-/

namespace Atsc

/-! ## `utils/mod.rs` -/

/-- Fuel-bounded repeated division: `stripFactor p fuel n` divides `n` by `p`
while divisible, mirroring the two `while n % _ == 0` loops of
`is_decomposable` in `utils/mod.rs`.  For `n ≥ 1`, `fuel = n` is more than
the number of divisions performed (each division at least halves `n`).
`n = 0` makes the Rust loop spin forever; it is never reached from
`next_size`, and the fuelled model returns `0` there. -/
def stripFactor (p : ℕ) : ℕ → ℕ → ℕ
  | 0, n => n
  | fuel + 1, n => if n % p = 0 then stripFactor p fuel (n / p) else n

/-- `is_decomposable` (`utils/mod.rs`): `n` is of the form `2^a · 3^b`.
The source strips factors of 2, then factors of 3, then compares with 1. -/
def is_decomposable (n : ℕ) : Bool :=
  stripFactor 3 n (stripFactor 2 n n) == 1

/-- Fuel-bounded linear scan used by `next_size`: first `m' ≥ m` with
`is_decomposable m'`.  The fuel chosen in `next_size` always suffices,
because some power of two lies in `(n, 2 * (n + 1))`. -/
def nextDecomp : ℕ → ℕ → ℕ
  | 0, m => m
  | fuel + 1, m => if is_decomposable m then m else nextDecomp fuel (m + 1)

/-- `next_size` (`utils/mod.rs`): the smallest integer `> n` whose prime
factorisation contains only 2 and 3. -/
def next_size (n : ℕ) : ℕ := nextDecomp (n + 2) (n + 1)

/-- `DECIMAL_PRECISION` (`utils/mod.rs`). -/
def DECIMAL_PRECISION : ℕ := 5

/-- Rust `f64::round` (round half away from zero), on exact rationals. -/
def ratRound (q : ℚ) : ℤ := if 0 ≤ q then ⌊q + 1 / 2⌋ else -⌊-q + 1 / 2⌋

/-- `round_f64` (`utils/mod.rs`): round `x` to `decimals` decimal places. -/
def round_f64 (x : ℚ) (decimals : ℕ) : ℚ :=
  let y : ℚ := 10 ^ decimals
  (ratRound (x * y) : ℚ) / y

/-- `round_and_limit_f64` (`utils/mod.rs`): round to `decimals` places and
clamp into `[lo, hi]`; the source checks the lower bound first. -/
def round_and_limit_f64 (x lo hi : ℚ) (decimals : ℕ) : ℚ :=
  let y : ℚ := 10 ^ decimals
  let out := (ratRound (x * y) : ℚ) / y
  if out < lo then lo
  else if hi < out then hi
  else out

/-- `f64_to_u64` (`utils/mod.rs`).  `precision > 6` panics in the source
(modelled as `none`); otherwise the source computes
`(number * mul) as u64` where `mul` is taken from a literal table.  The
`as u64` cast truncates toward zero and saturates at `0` for negative
inputs, which on rationals is exactly `Int.floor ∘ Int.toNat` composed as
`(⌊·⌋).toNat`. -/
def f64_to_u64 (number : ℚ) (precision : ℕ) : Option ℕ :=
  if 6 < precision then none
  else
    let mul : ℕ := [1, 10, 100, 1000, 10000, 100000, 1000000].getD precision 0
    some (⌊number * (mul : ℚ)⌋.toNat)

/-- `calculate_error` (`utils/error.rs`): mean squared error of two
equal-length sequences, `none` on a length mismatch. -/
def calculate_error (vec1 vec2 : List ℚ) : Option ℚ :=
  if vec1.length ≠ vec2.length then none
  else
    some ((((vec1.zip vec2).map fun p => (p.1 - p.2) ^ 2).sum) /
      (min vec1.length vec2.length : ℚ))

/-! ## External collaborators

`Interpolation` and `SplineKey` mirror the key type of the `splines` crate
as used by `polynomial.rs` (only the two interpolation modes the source
selects). -/

inductive Interpolation
  | CatmullRom
  | Linear
deriving DecidableEq

structure SplineKey where
  t : ℚ
  value : ℚ
  interpolation : Interpolation
deriving DecidableEq

/-- Model of the external crates used by the compressors.  The two FFT
transforms come from `rustfft` and run in place on a `Vec`, hence they
preserve the buffer length by the semantics of the call; `splineSample`
models `Spline::clamped_sample` of the `splines` crate (`none` when the
spline is undefined at the point) and `idwEvaluate` models
`IDW::new(points, values).evaluate(x)` of `inverse_distance_weight`. -/
structure ExternModel where
  fftForward : List (ℚ × ℚ) → List (ℚ × ℚ)
  fftInverse : List (ℚ × ℚ) → List (ℚ × ℚ)
  forward_length : ∀ l, (fftForward l).length = l.length
  inverse_length : ∀ l, (fftInverse l).length = l.length
  splineSample : List SplineKey → ℚ → Option ℚ
  idwEvaluate : List ℚ → List ℚ → ℚ → ℚ

/-! ## `compressor/fft.rs` -/

/-- `FrequencyPoint` (`fft.rs`): stored frequency position (`u16`) with the
real and imaginary `f32` parts. -/
structure FrequencyPoint where
  pos : ℕ
  freq_real : ℚ
  freq_img : ℚ
deriving DecidableEq

/-- Squared magnitude of a stored frequency.  The source compares `f32`
norms (`Complex::norm`, a square root); on nonnegative reals the squared
comparisons order the points identically. -/
def FrequencyPoint.normSq (p : FrequencyPoint) : ℚ :=
  p.freq_real ^ 2 + p.freq_img ^ 2

/-- The domain-specific descending order used by the `BinaryHeap` in
`fft_trim`: `freqDesc p q` holds when `p`'s magnitude is at least `q`'s.
The source's `Ord` treats equal norms as equal, so a heap pop sequence is
exactly a `freqDesc`-sorted sequence; ties are popped in an unspecified
order, and the sort below fixes one such order. -/
def freqDesc (p q : FrequencyPoint) : Prop := q.normSq ≤ p.normSq

instance : DecidableRel freqDesc := fun p q =>
  inferInstanceAs (Decidable (q.normSq ≤ p.normSq))

instance : IsTotal FrequencyPoint freqDesc :=
  ⟨fun p q => le_total q.normSq p.normSq⟩

instance : IsTrans FrequencyPoint freqDesc :=
  ⟨fun _ _ _ h1 h2 => le_trans h2 h1⟩

/-- The `FFT` compressor struct (`fft.rs`).  The `error` field is computed
during bounded fitting but never serialised. -/
structure FFT where
  id : ℕ
  frequencies : List FrequencyPoint
  max_value : ℚ
  min_value : ℚ
  error : Option ℚ
deriving DecidableEq

/-- `FFT::new` (`fft.rs`): id 15, empty frequency list, `f64 → f32` casts of
the extremes (exact in the model). -/
def FFT.new (_sample_count : ℕ) (min max : ℚ) : FFT :=
  ⟨15, [], max, min, none⟩

/-- `FFT::gibbs_sizing` (`fft.rs`): pad the chunk to `next_size` length,
half (rounded down) of the padding with copies of the first sample in
front, the rest with copies of the last sample behind.  The source indexes
`data[0]` / `data.last().unwrap()` and panics on an empty chunk; callers
guarantee `data.len() ≥ 128`. -/
def gibbs_sizing (data : List ℚ) : List ℚ :=
  let data_len := data.length
  let added_len := next_size data_len - data_len
  let pre_len := added_len / 2
  let suffix_len := added_len - pre_len
  List.replicate pre_len data.headI ++ data ++
    List.replicate suffix_len (data.getLastD 0)

/-- `FFT::round` (`fft.rs`): round to `decimals` decimals, then clamp into
`[min_value, max_value]` (upper bound checked first in the source). -/
def FFT.round (st : FFT) (x : ℚ) (decimals : ℕ) : ℚ :=
  let y : ℚ := 10 ^ decimals
  let out := (ratRound (x * y) : ℚ) / y
  if st.max_value < out then st.max_value
  else if out < st.min_value then st.min_value
  else out

/-- `FFT::optimize` (`fft.rs`): the chunk as complex values with zero
imaginary part. -/
def optimize (data : List ℚ) : List (ℚ × ℚ) := data.map fun x => (x, 0)

/-- The pop loop of `fft_trim` (`fft.rs`, lines 269-277): pop up to
`max_freq` points in descending magnitude order, stopping early (without
pushing) at the first point whose real and imaginary parts are both
zero. -/
def popLoop : List FrequencyPoint → ℕ → List FrequencyPoint
  | _, 0 => []
  | [], _ + 1 => []
  | p :: rest, k + 1 =>
    if p.freq_img = 0 ∧ p.freq_real = 0 then [] else p :: popLoop rest k

/-- `FFT::fft_trim` (`fft.rs`): with `max_freq = 1`, return the single point
at buffer position 0 unconditionally (the source indexes `buffer[0]`,
panicking on an empty buffer; the model uses `headI`).  Otherwise number
the buffer (`pos as u16`), order it by descending magnitude (the heap), and
run the pop loop. -/
def fft_trim (buffer : List (ℚ × ℚ)) (max_freq : ℕ) : List FrequencyPoint :=
  if max_freq = 1 then [⟨0, buffer.headI.1, buffer.headI.2⟩]
  else
    let tmp_vec : List FrequencyPoint :=
      buffer.enum.map fun pf => ⟨pf.1 % 65536, pf.2.1, pf.2.2⟩
    popLoop (List.insertionSort freqDesc tmp_vec) max_freq

/-- `FFT::compress_hinted` (`fft.rs`): skip when the extremes coincide,
otherwise transform, keep the first `len / 2 + 1` coefficients and trim to
the hinted count. -/
def FFT.compress_hinted (M : ExternModel) (st : FFT) (data : List ℚ)
    (max_freq : ℕ) : FFT :=
  if st.max_value = st.min_value then st
  else
    let buffer := M.fftForward (optimize data)
    let size := buffer.length / 2 + 1
    { st with frequencies := fft_trim (buffer.take size) max_freq }

/-- `FFT::compress` (`fft.rs`): the default mode, with
`max_freq = max 3 (len / 100)` (the source writes
`if 3 >= v / 100 { 3 } else { v / 100 }`). -/
def FFT.compress (M : ExternModel) (st : FFT) (data : List ℚ) : FFT :=
  if st.max_value = st.min_value then st
  else
    let v := data.length
    let max_freq := if v / 100 ≤ 3 then 3 else v / 100
    let buffer := M.fftForward (optimize data)
    let size := buffer.length / 2 + 1
    { st with frequencies := fft_trim (buffer.take size) max_freq }

/-- One write step of `get_mirrored_freqs` (`fft.rs`): place the point,
and mirror the conjugate unless it is the DC component.  Rust indexing
would panic out of range where `List.set` is a no-op; stored positions are
in range for every payload the theorems below consider. -/
def mirrorStep (len : ℕ) (d : List (ℚ × ℚ)) (f : FrequencyPoint) :
    List (ℚ × ℚ) :=
  let d1 := d.set f.pos (f.freq_real, f.freq_img)
  if f.pos = 0 then d1 else d1.set (len - f.pos) (f.freq_real, -f.freq_img)

/-- `FFT::get_mirrored_freqs` (`fft.rs`). -/
def FFT.get_mirrored_freqs (st : FFT) (len : ℕ) : List (ℚ × ℚ) :=
  st.frequencies.foldl (mirrorStep len) (List.replicate len ((0 : ℚ), (0 : ℚ)))

/-- `FFT::to_data` (`fft.rs`): constant short-circuit when the extremes
coincide; otherwise rebuild the mirrored spectrum at the (possibly
Gibbs-padded) length, inverse-transform, normalise, round-and-clamp each
real part, and slice away the padding
(`out_data[prefix .. len - suffix]`). -/
def FFT.to_data (M : ExternModel) (st : FFT) (frame_size : ℕ) : List ℚ :=
  if st.max_value = st.min_value then List.replicate frame_size st.max_value
  else
    let trim_sizes :=
      if 128 ≤ frame_size then
        let added_len := next_size frame_size - frame_size
        (added_len / 2, added_len - added_len / 2)
      else ((0 : ℕ), (0 : ℕ))
    let gibbs_frame_size := frame_size + trim_sizes.1 + trim_sizes.2
    let data := st.get_mirrored_freqs gibbs_frame_size
    let idata := M.fftInverse data
    let out_data :=
      idata.map fun f => st.round (f.1 / (gibbs_frame_size : ℚ)) DECIMAL_PRECISION
    (out_data.drop trim_sizes.1).take
      (out_data.length - trim_sizes.2 - trim_sizes.1)

/-- The min/max scan of the free functions `fft` / `fft_set` (`fft.rs`):
both extremes start at `data[0]` (panic on empty chunk; `headI` in the
model) and are updated by strict comparisons. -/
def fftStats (data : List ℚ) : ℚ × ℚ :=
  data.foldl
    (fun mm e => (if e < mm.1 then e else mm.1, if mm.2 < e then e else mm.2))
    (data.headI, data.headI)

/-- The free function `fft` (`fft.rs`): scan the extremes, build the
compressor and run the default mode.  Serialisation (`to_bytes`) is the
`bincode` round-trip, modelled as the identity on the struct. -/
def fft (M : ExternModel) (data : List ℚ) : FFT :=
  let mm := fftStats data
  (FFT.new data.length mm.1 mm.2).compress M data

/-! ## `compressor/polynomial.rs` -/

inductive PolynomialType
  | Polynomial
  | Idw
deriving DecidableEq

/-- The `Polynomial` compressor struct (`polynomial.rs`).  `point_step` is a
`u8` in the source; the single write site truncates with `as u8`, so the
field is a `ℕ` kept below 256 by that write. -/
structure Polynomial where
  id : PolynomialType
  data_points : List ℚ
  max_value : ℚ
  max_position : ℕ
  min_value : ℚ
  min_position : ℕ
  point_step : ℕ
deriving DecidableEq

/-- `Polynomial::new` (`polynomial.rs`). -/
def Polynomial.new (_sample_count : ℕ) (min max : ℚ) (ptype : PolynomialType) :
    Polynomial :=
  ⟨ptype, [], max, 0, min, 0, 1⟩

/-- `Polynomial::set_pos` (`polynomial.rs`). -/
def Polynomial.set_pos (st : Polynomial) (pmin pmax : ℕ) : Polynomial :=
  { st with min_position := pmin, max_position := pmax }

/-- Model of `(0..bound).step_by(step)`.  `step_by(0)` panics in Rust; the
model returns `[]` there, and no theorem below relies on that case. -/
def stepRange (bound step : ℕ) : List ℕ :=
  if step = 0 then []
  else (List.range ((bound + step - 1) / step)).map (· * step)

/-- The keypoint position grid of `compress_hinted` (`polynomial.rs`):
stride multiples below `data_len`, with `data_len - 1` appended when it is
not already the last grid point. -/
def hintedPoints (data_len step : ℕ) : List ℕ :=
  let pts := stepRange data_len step
  if pts.getLast? = some (data_len - 1) then pts else pts ++ [data_len - 1]

/-- One iteration of the min/max insertion loop of `compress_hinted`
(`polynomial.rs`, lines 150-162): when the recorded min (resp. max)
position falls strictly between the previous and current grid positions,
insert the min (resp. max) value at the current *enumeration* index —
an index into the original grid, not into the already-shifted value
list. -/
def insertLoopStep (st : Polynomial) (acc : List ℚ × ℕ) (ap_pv : ℕ × ℕ) :
    List ℚ × ℕ :=
  let vals := acc.1
  let prev := acc.2
  let ap := ap_pv.1
  let pv := ap_pv.2
  let vals1 :=
    if prev < st.min_position ∧ st.min_position < pv then
      vals.insertIdx ap st.min_value
    else vals
  let vals2 :=
    if prev < st.max_position ∧ st.max_position < pv then
      vals1.insertIdx ap st.max_value
    else vals1
  (vals2, pv)

/-- The stored value list of `compress_hinted` (`polynomial.rs`): the chunk
sampled at the (untruncated) stride grid, then run through the min/max
insertion loop with the previous position seeded from `points[0]`. -/
def hintedValues (st : Polynomial) (data : List ℚ) (step : ℕ) : List ℚ :=
  let pts := hintedPoints data.length step
  let values := pts.map fun i => data.getD i 0
  (pts.enum.foldl (insertLoopStep st) (values, pts.headI)).1

/-- `Polynomial::compress_hinted` (`polynomial.rs`): skip when the extremes
coincide; otherwise `step = max 1 (data_len / points)` (Rust panics when
`points = 0`; the model's `data_len / 0 = 0` is never relied upon), sample
the values with that stride, and store `step as u8` — the stride truncated
to 8 bits. -/
def Polynomial.compress_hinted (st : Polynomial) (data : List ℚ)
    (points : ℕ) : Polynomial :=
  if st.max_value = st.min_value then st
  else
    let step := max (data.length / points) 1
    { st with
        data_points := hintedValues st data step,
        point_step := step % 256 }

/-- `Polynomial::compress` (`polynomial.rs`): the default mode with
`points = max 3 (len / 100)`. -/
def Polynomial.compress (st : Polynomial) (data : List ℚ) : Polynomial :=
  let points := if data.length / 100 ≤ 3 then 3 else data.length / 100
  st.compress_hinted data points

/-- `Polynomial::get_positions` (`polynomial.rs`): rebuild the position
list from `(frame_size, point_step, min_position, max_position)`.  Walk the
stride multiples; a grid point equal to either recorded position is pushed
as-is, a recorded position strictly between the previous and current grid
point is pushed before it; afterwards append `max_position` when it is
beyond the last emitted point (`points.last() < Some(&max_position)`, with
`None < Some _`), and finally `frame_size - 1` when not already last. -/
def Polynomial.get_positions (st : Polynomial) (frame_size : ℕ) : List ℕ :=
  let walk :=
    (stepRange frame_size st.point_step).foldl
      (fun (acc : List ℕ × ℕ) pv =>
        let points := acc.1
        let prev := acc.2
        if st.min_position = pv ∨ st.max_position = pv then
          (points ++ [pv], pv)
        else
          let p1 :=
            if prev < st.min_position ∧ st.min_position < pv then
              points ++ [st.min_position]
            else points
          let p2 :=
            if prev < st.max_position ∧ st.max_position < pv then
              p1 ++ [st.max_position]
            else p1
          (p2 ++ [pv], pv))
      ([], 0)
  let points := walk.1
  let points1 :=
    match points.getLast? with
    | none => points ++ [st.max_position]
    | some x => if x < st.max_position then points ++ [st.max_position] else points
  if points1.getLast? ≠ some (frame_size - 1) then points1 ++ [frame_size - 1]
  else points1

/-- The key list built by `polynomial_to_data` (`polynomial.rs`): positions
zipped with stored values; `CatmullRom` needs a key behind and two ahead,
so the first key and the last two degrade to `Linear` (the source tests
`current_key > 0 && points.len() - current_key > 2`). -/
def Polynomial.buildKeys (st : Polynomial) (points : List ℕ) :
    List SplineKey :=
  (points.zip st.data_points).enum.map fun kpv =>
    let current_key := kpv.1
    let interp :=
      if 0 < current_key ∧ 2 < points.length - current_key then
        Interpolation.CatmullRom
      else Interpolation.Linear
    ⟨(kpv.2.1 : ℚ), kpv.2.2, interp⟩

/-- The sampling loop of `polynomial_to_data` (`polynomial.rs`): sample the
spline at each integer position, reusing the previous sample where the
spline is undefined (seeded from `min_value` by the caller), and
round-and-clamp each output. -/
def splineWalk (M : ExternModel) (keys : List SplineKey) (st : Polynomial) :
    List ℕ → ℚ → List ℚ
  | [], _ => []
  | v :: vs, prev =>
    let spline_value := (M.splineSample keys (v : ℚ)).getD prev
    round_and_limit_f64 spline_value st.min_value st.max_value
        DECIMAL_PRECISION ::
      splineWalk M keys st vs spline_value

/-- `Polynomial::polynomial_to_data` (`polynomial.rs`): constant
short-circuit when the extremes coincide, otherwise rebuild the positions,
build the spline keys and sample `0 .. frame_size`. -/
def Polynomial.polynomial_to_data (M : ExternModel) (st : Polynomial)
    (frame_size : ℕ) : List ℚ :=
  if st.max_value = st.min_value then List.replicate frame_size st.max_value
  else
    let points := st.get_positions frame_size
    let keys := st.buildKeys points
    splineWalk M keys st (List.range frame_size) st.min_value

/-- `Polynomial::idw_to_data` (`polynomial.rs`): no constant short-circuit;
evaluate the external inverse-distance interpolant at each integer position
and round-and-clamp. -/
def Polynomial.idw_to_data (M : ExternModel) (st : Polynomial)
    (frame_size : ℕ) : List ℚ :=
  let points := (st.get_positions frame_size).map fun (f : ℕ) => (f : ℚ)
  (List.range frame_size).map fun (f : ℕ) =>
    round_and_limit_f64 (M.idwEvaluate points st.data_points (f : ℚ))
      st.min_value st.max_value DECIMAL_PRECISION

/-- `Polynomial::to_data` (`polynomial.rs`): dispatch on the kind tag. -/
def Polynomial.to_data (M : ExternModel) (st : Polynomial)
    (frame_size : ℕ) : List ℚ :=
  match st.id with
  | .Idw => st.idw_to_data M frame_size
  | .Polynomial => st.polynomial_to_data M frame_size

/-- The accumulator of the min/max/positions scan of the free functions
`polynomial` / `polynomial_allowed_error` (`polynomial.rs`). -/
structure ScanStats where
  min : ℚ
  max : ℚ
  pmin : ℕ
  pmax : ℕ
deriving DecidableEq

/-- The scan itself: strict comparisons, both extremes starting at
`data[0]` (panic on empty chunk; `headI` in the model), recording the first
position at which each strict improvement happens. -/
def polynomialScan (data : List ℚ) : ScanStats :=
  data.enum.foldl
    (fun acc pe =>
      let acc1 :=
        if acc.max < pe.2 then { acc with max := pe.2, pmax := pe.1 } else acc
      if pe.2 < acc1.min then { acc1 with min := pe.2, pmin := pe.1 } else acc1)
    ⟨data.headI, data.headI, 0, 0⟩

/-- The free function `polynomial` (`polynomial.rs`): scan, build, set the
recorded positions and run the default mode (serialisation modelled as the
identity on the struct). -/
def polynomialCompress (data : List ℚ) (idw : PolynomialType) : Polynomial :=
  let s := polynomialScan data
  ((Polynomial.new data.length s.min s.max idw).set_pos s.pmin s.pmax).compress
    data

/-! ## The missing tag-30 Constant compressor

`compressor/mod.rs` imports `constant_compressor` / `constant_to_data` and
the stream test in `data.rs` expects a payload starting with tag byte 30,
but the `constant.rs` present under `src/` is a legacy copy (tag 0, empty
`to_bytes`).  The tag-30 implementation is therefore modelled from the
specification.  The payload needs the IEEE-754 binary64 little-endian
encoding; the model below encodes exactly representable rationals (the
only values the theorems use). -/

/-- Largest exponent `e ≤ acc + fuel` with `2 ^ e ≤ q`, scanned upward from
`acc`; used on `q ≥ 1`. -/
def upExp (q : ℚ) : ℕ → ℕ → ℕ
  | acc, 0 => acc
  | acc, fuel + 1 =>
    if (2 : ℚ) ^ (acc + 1) ≤ q then upExp q (acc + 1) fuel else acc

/-- Smallest `k ≥ acc` with `1 ≤ q * 2 ^ k`, scanned upward; used on
`0 < q < 1`, whose binary exponent is `-k`. -/
def downExp (q : ℚ) : ℕ → ℕ → ℕ
  | acc, 0 => acc
  | acc, fuel + 1 =>
    if 1 ≤ q * 2 ^ acc then acc else downExp q (acc + 1) fuel

/-- Modelled from the spec: binary exponent of a positive rational within
the binary64 normal range. -/
def f64Exp (q : ℚ) : ℤ :=
  if 1 ≤ q then ((upExp q 0 1023 : ℕ) : ℤ) else -((downExp q 0 1074 : ℕ) : ℤ)

/-- Modelled from the spec: binary64 bit pattern of a positive normal
rational (sign bit clear). -/
def f64BitsPos (q : ℚ) : ℕ :=
  let e := f64Exp q
  let m := (q * (2 : ℚ) ^ (-e) - 1) * 2 ^ 52
  (e + 1023).toNat * 2 ^ 52 + m.floor.toNat

/-- Modelled from the spec: binary64 bit pattern of an exactly
representable rational. -/
def f64Bits (q : ℚ) : ℕ :=
  if q = 0 then 0
  else if q < 0 then 2 ^ 63 + f64BitsPos (-q)
  else f64BitsPos q

/-- Little-endian byte list (8 bytes) of a 64-bit pattern. -/
def leBytes8 (bits : ℕ) : List ℕ :=
  (List.range 8).map fun i => bits / 256 ^ i % 256

/-- Read back a little-endian 64-bit pattern. -/
def readLe8 (bytes : List ℕ) : ℕ :=
  (bytes.take 8).enum.foldl (fun acc ib => acc + ib.2 % 256 * 256 ^ ib.1) 0

/-- Rational value of a binary64 bit pattern (normal numbers and zero). -/
def f64OfBits (b : ℕ) : ℚ :=
  let e : ℕ := b / 2 ^ 52 % 2 ^ 11
  let m : ℕ := b % 2 ^ 52
  let sign : ℚ := if b / 2 ^ 63 % 2 = 1 then -1 else 1
  if e = 0 ∧ m = 0 then 0
  else sign * (((2 ^ 52 + m : ℕ) : ℚ) / 2 ^ 52) * (2 : ℚ) ^ ((e : ℤ) - 1023)

/-- Modelled from the spec (§4.3, §6): the tag-30 Constant payload — kind
tag 30 followed by the value as a little-endian `f64`. -/
def constant_to_bytes (value : ℚ) : List ℕ := 30 :: leBytes8 (f64Bits value)

/-- Modelled from the spec (§4.3): the Constant compressor sets
`value = chunk.min` and serialises it. -/
def constant_compressor (data : List ℚ) : List ℕ :=
  constant_to_bytes (fftStats data).1

/-- Modelled from the spec (§4.3): Constant decode — check the kind tag,
read the value, emit it `sample_count` times. -/
def constant_to_data (sample_count : ℕ) (payload : List ℕ) :
    Option (List ℚ) :=
  match payload with
  | 30 :: rest =>
    if rest.length = 8 then
      some (List.replicate sample_count (f64OfBits (readLe8 rest)))
    else none
  | _ => none

/-! ## `compressor/mod.rs`: the per-kind dispatch

`Auto` is a selection strategy resolved before framing (`mod.rs` leaves it
as `todo!()` in these dispatch functions), so the payload-level dispatch
covers the five concrete kinds.  Serialisation is the `bincode` round-trip
on each struct, modelled as the identity, so a payload is the struct
itself. -/

inductive Compressor
  | Noop
  | FFT
  | Idw
  | Constant
  | Polynomial
deriving DecidableEq

inductive CompressedPayload
  | noop (samples : List ℚ)
  | fft (f : FFT)
  | poly (p : Polynomial)
  | const (value : ℚ)

/-- Modelled from the spec (§4.4, `noop.rs` is not under `src/`): the Noop
compressor stores the samples verbatim. -/
def noopCompress (data : List ℚ) : List ℚ := data

/-- `Compressor::compress` (`mod.rs`): default-mode dispatch. -/
def Compressor.compress (M : ExternModel) (c : Compressor) (data : List ℚ) :
    CompressedPayload :=
  match c with
  | .Noop => .noop (noopCompress data)
  | .FFT => .fft (fft M data)
  | .Constant => .const (fftStats data).1
  | .Polynomial => .poly (polynomialCompress data .Polynomial)
  | .Idw => .poly (polynomialCompress data .Idw)

/-- `Compressor::decompress` (`mod.rs`): each kind's decoder applied to the
frame's payload with the frame's `sample_count`. -/
def decompressPayload (M : ExternModel) (samples : ℕ) :
    CompressedPayload → List ℚ
  | .noop raw => raw
  | .fft f => f.to_data M samples
  | .poly p => p.to_data M samples
  | .const v => List.replicate samples v

/-! ## `data.rs`: stream decoding

`CompressedStream::from_bytes` is
`bincode::decode_from_slice(data, config).unwrap()`.  The `bincode` layer
itself returns a `Result`; `header.rs` and `frame.rs` are not under
`src/`, so the wire layout is modelled from the spec (§6): magic `BRRO`,
a version byte (currently 1), a varint frame count, then frames of
(varint `sample_count`, discriminant byte ≤ 4, varint `payload_len`,
`payload_len` bytes).  Varints are modelled in their single-byte range
(values < 251); a continuation marker is reported as `varintOverflow`. -/

inductive DecodeError
  | badMagic
  | badVersion
  | unexpectedEnd
  | badDiscriminant
  | varintOverflow
deriving DecidableEq

structure ModelFrame where
  sample_count : ℕ
  kind_disc : ℕ
  payload : List ℕ
deriving DecidableEq

structure ModelStream where
  version : ℕ
  frames : List ModelFrame
deriving DecidableEq

def readByte (d : List ℕ) : Except DecodeError (ℕ × List ℕ) :=
  match d with
  | [] => .error .unexpectedEnd
  | b :: rest => .ok (b, rest)

def readVarint (d : List ℕ) : Except DecodeError (ℕ × List ℕ) :=
  match d with
  | [] => .error .unexpectedEnd
  | b :: rest => if b < 251 then .ok (b, rest) else .error .varintOverflow

/-- Modelled from the spec (§6): decode one frame. -/
def parseFrame (d : List ℕ) : Except DecodeError (ModelFrame × List ℕ) :=
  match readVarint d with
  | .error e => .error e
  | .ok (sc, d1) =>
    match readByte d1 with
    | .error e => .error e
    | .ok (k, d2) =>
      if 4 < k then .error .badDiscriminant
      else
        match readVarint d2 with
        | .error e => .error e
        | .ok (plen, d3) =>
          if d3.length < plen then .error .unexpectedEnd
          else .ok (⟨sc, k, d3.take plen⟩, d3.drop plen)

def parseFrames : ℕ → List ℕ → Except DecodeError (List ModelFrame × List ℕ)
  | 0, d => .ok ([], d)
  | n + 1, d =>
    match parseFrame d with
    | .error e => .error e
    | .ok (f, d1) =>
      match parseFrames n d1 with
      | .error e => .error e
      | .ok (fs, d2) => .ok (f :: fs, d2)

/-- Modelled from the spec (§6, §8): the fallible `bincode` stream decode —
validate the magic and the version, then decode the frame list. -/
def streamDecode (d : List ℕ) : Except DecodeError ModelStream :=
  match d with
  | m0 :: m1 :: m2 :: m3 :: v :: rest =>
    if m0 = 66 ∧ m1 = 82 ∧ m2 = 82 ∧ m3 = 79 then
      if v = 1 then
        match readVarint rest with
        | .error e => .error e
        | .ok (n, d1) =>
          match parseFrames n d1 with
          | .error e => .error e
          | .ok (fs, _) => .ok ⟨v, fs⟩
      else .error .badVersion
    else .error .badMagic
  | _ => .error .unexpectedEnd

/-- What a call to `CompressedStream::from_bytes` can do for its caller:
return a stream, return an error value, or panic.  The `errReturn`
constructor is what the specification promises; the implementation never
produces it. -/
inductive DecodeOutcome
  | ok (s : ModelStream)
  | errReturn (e : DecodeError)
  | panicked
deriving DecidableEq

/-- `CompressedStream::from_bytes` (`data.rs`): the decode result is
`.unwrap()`-ed, so a decode error becomes a panic, never an error value
returned to the caller. -/
def from_bytes (d : List ℕ) : DecodeOutcome :=
  match streamDecode d with
  | .ok s => .ok s
  | .error _ => .panicked

/-! ## Concrete model instances used by witnesses and counterexamples -/

/-- A degenerate external model: both transforms are the identity (which is
length-preserving, the only property the length theorems use), the spline
is nowhere defined and the interpolant is 0. -/
def idModel : ExternModel :=
  ⟨id, id, fun _ => rfl, fun _ => rfl, fun _ _ => none, fun _ _ _ => 0⟩

/-- The size-2 discrete Fourier transform, whose twiddle factors are `±1`:
`[x0 + x1, x0 - x1]`.  At small integer inputs this is also exactly what
`rustfft` computes in `f32`.  Buffers of other lengths are untouched (the
counterexample below only transforms a length-2 buffer). -/
def dft2 : List (ℚ × ℚ) → List (ℚ × ℚ)
  | [a, b] => [(a.1 + b.1, a.2 + b.2), (a.1 - b.1, a.2 - b.2)]
  | l => l

/-- External model whose forward transform is the exact size-2 DFT. -/
def dft2Model : ExternModel :=
  ⟨dft2, id,
    fun l => by
      match l with
      | [] => rfl
      | [_] => rfl
      | [_, _] => rfl
      | _ :: _ :: _ :: _ => rfl,
    fun _ => rfl, fun _ _ => none, fun _ _ _ => 0⟩

/-- No point of the list has both parts zero (the zero-entry invariant the
specification states for stored frequency lists). -/
def zeroFree (l : List FrequencyPoint) : Prop :=
  ∀ p ∈ l, ¬(p.freq_real = 0 ∧ p.freq_img = 0)

instance (l : List FrequencyPoint) : Decidable (zeroFree l) :=
  List.decidableBAll _ l

/-- The length-10 chunk exhibiting the encode/decode keypoint count
mismatch: its minimum (value 1) sits at position 7, strictly inside the
final partial stride gap `(5, 9)`, and its maximum (value 9) at
position 2. -/
def c5Data : List ℚ := [2, 2, 9, 2, 2, 2, 2, 1, 2, 2]

/-- The frame produced by `compress_hinted` with hinted point count 2 on
`c5Data`, with the extremes and their positions scanned exactly as the free
function `polynomial` does. -/
def c5Frame : Polynomial :=
  ((Polynomial.new c5Data.length (polynomialScan c5Data).min
        (polynomialScan c5Data).max .Polynomial).set_pos
      (polynomialScan c5Data).pmin (polynomialScan c5Data).pmax).compress_hinted
    c5Data 2

/-- A length-300 chunk (299 zeros then a one) whose default stride with one
hinted point is 300, above the `u8` range. -/
def c9Data : List ℚ := List.replicate 299 0 ++ [1]

/-- The corresponding compressor state: extremes 0 and 1, min position 0,
max position 299. -/
def c9St : Polynomial :=
  (Polynomial.new 300 0 1 PolynomialType.Polynomial).set_pos 0 299

/-! ## Helper lemmas -/

theorem le_nextDecomp : ∀ (fuel m : ℕ), m ≤ nextDecomp fuel m
  | 0, m => le_refl m
  | fuel + 1, m => by
    unfold nextDecomp
    split
    · exact le_refl m
    · exact le_trans (Nat.le_succ m) (le_nextDecomp fuel (m + 1))

theorem le_next_size (n : ℕ) : n + 1 ≤ next_size n := le_nextDecomp _ _

theorem length_mirrorStep (len : ℕ) (d : List (ℚ × ℚ)) (f : FrequencyPoint) :
    (mirrorStep len d f).length = d.length := by
  unfold mirrorStep
  split <;> simp

theorem length_foldl_mirrorStep (len : ℕ) (freqs : List FrequencyPoint) :
    ∀ d : List (ℚ × ℚ), (freqs.foldl (mirrorStep len) d).length = d.length := by
  induction freqs with
  | nil => intro d; rfl
  | cons f fs ih => intro d; rw [List.foldl_cons, ih, length_mirrorStep]

theorem length_get_mirrored_freqs (st : FFT) (len : ℕ) :
    (st.get_mirrored_freqs len).length = len := by
  unfold FFT.get_mirrored_freqs
  rw [length_foldl_mirrorStep]
  simp

theorem fft_to_data_length (M : ExternModel) (st : FFT) (fs : ℕ) :
    (FFT.to_data M st fs).length = fs := by
  unfold FFT.to_data
  split
  · simp
  · simp only [List.length_take, List.length_drop, List.length_map,
      M.inverse_length, length_get_mirrored_freqs]
    split
    · omega
    · omega

theorem length_splineWalk (M : ExternModel) (keys : List SplineKey)
    (st : Polynomial) :
    ∀ (l : List ℕ) (prev : ℚ), (splineWalk M keys st l prev).length = l.length := by
  intro l
  induction l with
  | nil => intro prev; rfl
  | cons v vs ih => intro prev; simp [splineWalk, ih]

theorem poly_to_data_length (M : ExternModel) (st : Polynomial)
    (fs : ℕ) : (Polynomial.to_data M st fs).length = fs := by
  unfold Polynomial.to_data
  split
  · unfold Polynomial.idw_to_data
    simp only [List.length_map, List.length_range]
  · unfold Polynomial.polynomial_to_data
    split
    · simp
    · rw [length_splineWalk]
      simp

theorem popLoop_sublist :
    ∀ (l : List FrequencyPoint) (k : ℕ), List.Sublist (popLoop l k) l := by
  intro l
  induction l with
  | nil =>
    intro k
    cases k <;> simp [popLoop]
  | cons p rest ih =>
    intro k
    cases k with
    | zero => simp [popLoop]
    | succ k =>
      unfold popLoop
      split
      · exact List.nil_sublist _
      · exact List.Sublist.cons₂ p (ih k)

theorem popLoop_zeroFree :
    ∀ (l : List FrequencyPoint) (k : ℕ), zeroFree (popLoop l k) := by
  intro l
  induction l with
  | nil =>
    intro k
    cases k <;> exact fun p hp => absurd hp (List.not_mem_nil p)
  | cons q rest ih =>
    intro k
    cases k with
    | zero => exact fun p hp => absurd hp (List.not_mem_nil p)
    | succ k =>
      unfold popLoop
      split
      · exact fun p hp => absurd hp (List.not_mem_nil p)
      · intro p hp h2
        rcases List.mem_cons.mp hp with h3 | h3
        · subst h3
          rename_i hq
          exact hq ⟨h2.2, h2.1⟩
        · exact ih k p h3 h2

theorem upExp_stop (q : ℚ) (acc : ℕ) (h : ¬ (2 : ℚ) ^ (acc + 1) ≤ q) :
    ∀ fuel, upExp q acc fuel = acc := by
  intro fuel
  cases fuel with
  | zero => rfl
  | succ fuel =>
    unfold upExp
    rw [if_neg h]

/-! ## Claim theorems -/

/-- C2: for every chunk of length in `[1, 65535]` and every compressor
kind, decoding the payload produced by compressing the chunk, with
`sample_count` equal to the chunk length, yields exactly that many
samples.  (Holds for every external model; `rustfft`'s in-place transforms
preserve the buffer length.) -/
theorem C2_roundtrip_length (M : ExternModel) (c : Compressor)
    (data : List ℚ) (_h1 : 1 ≤ data.length) (_h2 : data.length ≤ 65535) :
    (decompressPayload M data.length (c.compress M data)).length
      = data.length := by
  cases c
  · rfl
  · exact fft_to_data_length M (fft M data) data.length
  · exact poly_to_data_length M (polynomialCompress data .Idw)
      data.length
  · simp [Compressor.compress, decompressPayload]
  · exact poly_to_data_length M (polynomialCompress data .Polynomial)
      data.length

/-- Witness for C2 at the FFT kind on the chunk `[1, 2]`, with the identity
external model. -/
theorem C2_witness :
    1 ≤ ([1, 2] : List ℚ).length ∧ ([1, 2] : List ℚ).length ≤ 65535 ∧
      (decompressPayload idModel ([1, 2] : List ℚ).length
          (Compressor.compress idModel Compressor.FFT [1, 2])).length
        = ([1, 2] : List ℚ).length :=
  ⟨by decide, by decide,
    C2_roundtrip_length idModel Compressor.FFT [1, 2] (by decide) (by decide)⟩

/-- C3: for a chunk of length `N ≥ 128`, `gibbs_sizing` prepends
`⌊pad / 2⌋` copies of the first sample and appends the remaining
`pad - ⌊pad / 2⌋` as copies of the last sample (`pad = next_size N - N`),
reaching length `next_size N`; and `to_data` on a frame with
`sample_count = N ≥ 128` removes the same pad, producing exactly `N`
samples. -/
theorem C3_gibbs_padding (M : ExternModel) (st : FFT) (data : List ℚ)
    (N : ℕ) (_h : 128 ≤ data.length) (_hN : 128 ≤ N) :
    gibbs_sizing data =
        List.replicate ((next_size data.length - data.length) / 2) data.headI
          ++ data
          ++ List.replicate
              ((next_size data.length - data.length)
                - (next_size data.length - data.length) / 2)
              (data.getLastD 0)
      ∧ (gibbs_sizing data).length = next_size data.length
      ∧ (FFT.to_data M st N).length = N := by
  refine ⟨rfl, ?_, fft_to_data_length M st N⟩
  have h1 := le_next_size data.length
  simp [gibbs_sizing]
  omega

/-- Witness for C3 on a 128-sample chunk (`next_size 128 = 144`, pad 16). -/
theorem C3_witness :
    128 ≤ (List.replicate 128 (1 : ℚ)).length ∧ (128 : ℕ) ≤ 128 ∧
      (gibbs_sizing (List.replicate 128 (1 : ℚ))).length
        = next_size (List.replicate 128 (1 : ℚ)).length :=
  ⟨by decide, by decide,
    (C3_gibbs_padding idModel (FFT.new 1 0 1) (List.replicate 128 (1 : ℚ))
        128 (by decide) (by decide)).2.1⟩

/-- C4 (amended): on the heap path (`max_freq ≠ 1`) the trimmed frequency
list is sorted in descending magnitude order and stores no point whose real
and imaginary parts are both zero.  (With `max_freq = 1` the single stored
DC bin may be zero — see the counterexample.) -/
theorem C4_trim_sorted_nonzero (buffer : List (ℚ × ℚ)) (max_freq : ℕ)
    (h : max_freq ≠ 1) :
    List.Sorted freqDesc (fft_trim buffer max_freq)
      ∧ zeroFree (fft_trim buffer max_freq) := by
  unfold fft_trim
  rw [if_neg h]
  constructor
  · exact List.Pairwise.sublist (popLoop_sublist _ _)
      (List.sorted_insertionSort freqDesc _)
  · exact popLoop_zeroFree _ _

/-- Counterexample for C4 as stated: the fixed-count mode with
`max_freq = 1` on the chunk `[1, -1]` (extremes `-1 ≠ 1`, so no
short-circuit) stores the DC bin, whose real and imaginary parts are both
zero — the size-2 DFT of `[1, -1]` is `[0, 2]`, exactly in `f32`. -/
theorem C4_counterexample :
    ¬ zeroFree
        ((FFT.compress_hinted dft2Model (FFT.new 2 (-1) 1)
            [1, -1] 1).frequencies) := by
  intro h
  exact h ⟨0, 1 + -1, 0 + 0⟩ (List.mem_singleton_self _)
    ⟨by norm_num, by norm_num⟩

/-- Witness for C4 (amended) on a concrete two-point buffer with
`max_freq = 2`. -/
theorem C4_witness :
    (2 : ℕ) ≠ 1 ∧
      (List.Sorted freqDesc (fft_trim [((3 : ℚ), (4 : ℚ)), ((1 : ℚ), (0 : ℚ))] 2)
        ∧ zeroFree (fft_trim [((3 : ℚ), (4 : ℚ)), ((1 : ℚ), (0 : ℚ))] 2)) :=
  ⟨by decide,
    C4_trim_sorted_nonzero [((3 : ℚ), (4 : ℚ)), ((1 : ℚ), (0 : ℚ))] 2
      (by decide)⟩

/-- C5 (failing input evaluated): on the non-constant chunk `c5Data`
(length 10) with hinted point count 2, `compress_hinted` stores 5 data
points, but the position list reconstructed by `get_positions` from
`(sample_count, point_step, min_position, max_position)` has length 4: the
minimum position 7 lies strictly inside the final partial stride gap
`(5, 9)`, which the encoder's insertion loop covers but the decoder's walk
does not. -/
theorem C5_position_count_mismatch :
    c5Frame.data_points.length = 5
      ∧ (c5Frame.get_positions c5Data.length).length = 4
      ∧ (4 : ℕ) ≠ 5 := by
  decide

/-- C6: compressing `[1.0; 5]` with the (spec-modelled) tag-30 Constant
compressor yields exactly the payload bytes
`[30, 0, 0, 0, 0, 0, 0, 240, 63]`, and decoding that payload with
`sample_count = 5` yields `[1.0; 5]`. -/
theorem C6_constant_scenario :
    constant_compressor [1, 1, 1, 1, 1] = [30, 0, 0, 0, 0, 0, 0, 240, 63]
      ∧ constant_to_data 5 [30, 0, 0, 0, 0, 0, 0, 240, 63]
        = some [1, 1, 1, 1, 1] := by
  have hexp : f64Exp 1 = 0 := by
    unfold f64Exp
    rw [if_pos le_rfl, upExp_stop 1 0 (by norm_num) 1023]
    rfl
  have hbits : f64Bits 1 = 1023 * 2 ^ 52 := by
    unfold f64Bits
    rw [if_neg (by norm_num), if_neg (by norm_num)]
    show ((f64Exp 1) + 1023).toNat * 2 ^ 52
        + ((((1 : ℚ) * (2 : ℚ) ^ (-(f64Exp 1)) - 1) * 2 ^ 52).floor).toNat
      = 1023 * 2 ^ 52
    rw [hexp]
    norm_num
    decide
  have hread : readLe8 [0, 0, 0, 0, 0, 0, 240, 63] = 1023 * 2 ^ 52 := by
    decide
  have hval : f64OfBits (1023 * 2 ^ 52) = 1 := by
    norm_num [f64OfBits]
  constructor
  · have hstats : (fftStats [1, 1, 1, 1, 1]).1 = 1 := by decide
    unfold constant_compressor constant_to_bytes
    rw [hstats, hbits]
    decide
  · show (if ([0, 0, 0, 0, 0, 0, 240, 63] : List ℕ).length = 8 then
        some (List.replicate 5 (f64OfBits (readLe8 [0, 0, 0, 0, 0, 0, 240, 63])))
      else none) = some [1, 1, 1, 1, 1]
    rw [if_pos (show ([0, 0, 0, 0, 0, 0, 240, 63] : List ℕ).length = 8
      from rfl), hread, hval]
    decide

/-- C7 (amended): whenever the `bincode`-layer stream decode fails (bad
magic, unknown version, truncated input, bad discriminant, varint marker),
`CompressedStream::from_bytes` panics via `.unwrap()` — it returns no error
value and no partial result to the caller. -/
theorem C7_unwrap_panics (d : List ℕ) (e : DecodeError)
    (h : streamDecode d = .error e) : from_bytes d = .panicked := by
  simp [from_bytes, h]

/-- Counterexample for C7 as stated: on the malformed input
`[0, 1, 2, 3, 4]` (bad magic) the decode fails, and `from_bytes` panics
instead of returning a descriptive error kind. -/
theorem C7_counterexample :
    streamDecode [0, 1, 2, 3, 4] = Except.error DecodeError.badMagic
      ∧ from_bytes [0, 1, 2, 3, 4] = DecodeOutcome.panicked
      ∧ DecodeOutcome.panicked ≠ DecodeOutcome.errReturn DecodeError.badMagic :=
  ⟨rfl, rfl, by decide⟩

/-- Witness for C7 (amended) on the truncated input `[0]`. -/
theorem C7_witness :
    streamDecode [0] = Except.error DecodeError.unexpectedEnd
      ∧ from_bytes [0] = DecodeOutcome.panicked :=
  ⟨rfl, C7_unwrap_panics [0] DecodeError.unexpectedEnd rfl⟩

/-- C8 (amended): for `x ≥ 0`, `f64_to_u64 x d` returns the *truncation*
`⌊x · 10^d⌋` when `d ≤ 6` (not the rounding the specification states), and
rejects `d > 6` (a panic in the source, `none` in the model). -/
theorem C8_truncating_conversion (x : ℚ) (d : ℕ) (_hx : 0 ≤ x) :
    f64_to_u64 x d
      = if d ≤ 6 then some (⌊x * 10 ^ d⌋.toNat) else none := by
  by_cases h : d ≤ 6
  · rw [if_pos h]
    interval_cases d <;> simp [f64_to_u64] <;> norm_num
  · rw [if_neg h]
    unfold f64_to_u64
    rw [if_pos (by omega)]

/-- Counterexample for C8 as stated: at `x = 3/2`, `d = 0` (where the `f64`
multiplication is exact) the source truncates to 1 while rounding gives
2. -/
theorem C8_counterexample :
    f64_to_u64 (3 / 2) 0 = some 1
      ∧ ratRound ((3 / 2 : ℚ) * 10 ^ 0) = 2
      ∧ (1 : ℕ) ≠ 2 := by
  refine ⟨?_, ?_, by decide⟩
  · unfold f64_to_u64
    norm_num
  · unfold ratRound
    norm_num

/-- Witness for C8 (amended) at `x = 3/2`, `d = 2`. -/
theorem C8_witness :
    (0 : ℚ) ≤ 3 / 2 ∧
      f64_to_u64 (3 / 2) 2
        = if 2 ≤ 6 then some (⌊(3 / 2 : ℚ) * 10 ^ 2⌋.toNat) else none :=
  ⟨by norm_num, C8_truncating_conversion (3 / 2) 2 (by norm_num)⟩

/-- C9: when the stride `max 1 (N / P)` exceeds 255, `compress_hinted`
stores `point_step` as the stride truncated to 8 bits (`as u8`), which is
strictly smaller than the stride actually used to select the keypoint
values (`hintedValues` walks the untruncated stride); `get_positions`
reconstructs positions from the stored, truncated `point_step`. -/
theorem C9_step_truncation (st : Polynomial) (data : List ℚ) (P : ℕ)
    (h1 : st.max_value ≠ st.min_value)
    (h2 : 255 < max (data.length / P) 1) :
    (st.compress_hinted data P).point_step = max (data.length / P) 1 % 256
      ∧ (st.compress_hinted data P).point_step < max (data.length / P) 1
      ∧ (st.compress_hinted data P).data_points
        = hintedValues st data (max (data.length / P) 1) := by
  unfold Polynomial.compress_hinted
  rw [if_neg h1]
  refine ⟨rfl, ?_, rfl⟩
  simp only
  omega

/-- Witness for C9 on the 300-sample chunk `c9Data` with one hinted point
(stride 300, stored `point_step` 44). -/
theorem C9_witness :
    c9St.max_value ≠ c9St.min_value ∧ 255 < max (c9Data.length / 1) 1 ∧
      (c9St.compress_hinted c9Data 1).point_step
        = max (c9Data.length / 1) 1 % 256 :=
  ⟨by decide, by decide,
    (C9_step_truncation c9St c9Data 1 (by decide) (by decide)).1⟩

/-- C10: for every non-empty frequency buffer, `fft_trim` with
`max_freq = 1` returns exactly the single point at buffer position 0 (the
DC component), whatever the magnitudes of the other bins and even when the
DC bin is zero. -/
theorem C10_trim_single (buffer : List (ℚ × ℚ)) (h : buffer ≠ []) :
    fft_trim buffer 1 = [⟨0, (buffer.head h).1, (buffer.head h).2⟩] := by
  cases buffer with
  | nil => exact absurd rfl h
  | cons b rest => rfl

/-- Witness for C10 on a buffer whose DC bin is zero while another bin has
larger magnitude. -/
theorem C10_witness :
    ([((0 : ℚ), (0 : ℚ)), ((7 : ℚ), (1 : ℚ))] : List (ℚ × ℚ)) ≠ []
      ∧ fft_trim [((0 : ℚ), (0 : ℚ)), ((7 : ℚ), (1 : ℚ))] 1 = [⟨0, 0, 0⟩] :=
  ⟨by decide, C10_trim_single _ (by decide)⟩

end Atsc
